import Mathlib

/-!
# Verification of the niri IPC server (`src/ipc/server.rs`)

Shallow embedding of the IPC control-plane server: the per-connection session
handler `handle_client`, the connection-acceptor callback registered by
`IpcServer::start`, the socket-path construction, and the `Drop` cleanup.

Modelling conventions:
* A client connection's incoming byte stream is a `List (List Char)`: the list
  of chunks successive reads deliver; the end of the list is end-of-stream
  (the client closed its write side).  OS-level read/write errors and invalid
  UTF-8 are outside the pure model.
* `BufReader::read_line` becomes `readLine`: it accumulates chunks into a
  growable buffer until the buffer holds a newline, returning the bytes up to
  and including the first newline; at end-of-stream it returns whatever was
  buffered (as the real `read_line` does: EOF is `Ok`, not an error).
* Effects of a session are collected in a `HandleResult`: the payloads passed
  to `write_all`, the idle callbacks enqueued via `LoopHandle::insert_idle`
  (identified by the converted action they will apply), and the
  `anyhow::Result` value with its `context` message.
* The `niri-ipc` and `niri-config` crates are part of the repository but not
  under `src/`; their wire schema and action conversion are modelled from the
  spec where marked.
-/

namespace NiriIpc

/-- Modelled from the spec: the wire-level action payload of the `niri-ipc`
crate (not under `src/`) is an opaque, schema-defined value; we keep its raw
JSON text. -/
structure IpcAction where
  payload : List Char
deriving DecidableEq, Repr

/-- Modelled from the spec: the host's internal action representation
(`niri_config::Action`, not under `src/`); the conversion
`niri_config::Action::from` is an opaque embedding of the wire action. -/
structure ConfigAction where
  source : IpcAction
deriving DecidableEq, Repr

/-- Modelled from the spec: `niri_config::Action::from(action)`. -/
def configActionFrom (a : IpcAction) : ConfigAction := ⟨a⟩

/-- `niri_ipc::Request`: a tagged value with exactly two variants, a query
with no payload and an action carrying an opaque payload. -/
inductive Request
  | Outputs
  | Action (action : IpcAction)
deriving DecidableEq, Repr

/-- An output descriptor (`niri_ipc::Output`) is opaque to the server; we keep
its JSON text. -/
abbrev Output := String

/-- The shared snapshot source: a mapping from output identifier to
descriptor (`HashMap<String, niri_ipc::Output>`), modelled as an association
list. -/
abbrev OutputMap := List (String × Output)

/-- `niri_ipc::Response`: a tagged value with one variant, the mapping of
output identifiers to descriptors. -/
inductive Response
  | Outputs (outputs : OutputMap)
deriving DecidableEq, Repr

/-! ## Line reading (`BufReader::read_line`) -/

/-- The bytes of a buffer up to and including its first newline (the whole
buffer if it has no newline). -/
def takeToNewline : List Char → List Char
  | [] => []
  | c :: rest => if c = '\n' then ['\n'] else c :: takeToNewline rest

/-- One step per delivered chunk: append the chunk to the growable buffer;
once the buffer holds a newline, the line is everything up to and including
the first newline.  At end-of-stream the buffered bytes are returned as the
line (`read_line` reports EOF as success). -/
def readLineLoop (buf : List Char) : List (List Char) → List Char
  | [] => buf
  | c :: rest =>
    if '\n' ∈ buf ++ c then takeToNewline (buf ++ c)
    else readLineLoop (buf ++ c) rest

/-- `read_line` on a fresh `String` buffer, as `handle_client` calls it. -/
def readLine (chunks : List (List Char)) : List Char :=
  readLineLoop [] chunks

/-! ## Request parsing (`serde_json::from_str::<Request>`) -/

/-- JSON insignificant whitespace, which `serde_json` skips around a
top-level value. -/
def isJsonWs (c : Char) : Bool := c = ' ' || c = '\n' || c = '\t' || c = '\r'

/-- Strip leading and trailing JSON whitespace. -/
def trimWs (l : List Char) : List Char :=
  ((l.dropWhile isJsonWs).reverse.dropWhile isJsonWs).reverse

/-- The JSON text of the no-payload query variant: the string "Outputs"
(externally tagged unit variant). -/
def outputsJson : List Char := ['"', 'O', 'u', 't', 'p', 'u', 't', 's', '"']

/-- The opening of the externally tagged action variant:
an object with the single key "Action". -/
def actionKey : List Char := ['\x7b', '"', 'A', 'c', 't', 'i', 'o', 'n', '"', ':']

/-- Modelled from the spec: `serde_json` decoding of `niri_ipc::Request`
(the `niri-ipc` crate is not under `src/`).  The request is a tagged union
with two cases: the no-payload query tag, decoded from the JSON string
"Outputs", and the action tag, decoded from a one-key object whose opaque
payload is kept verbatim; surrounding whitespace (such as the newline that
`read_line` leaves in the buffer) is tolerated; anything else fails. -/
def parseRequest (line : List Char) : Option Request :=
  let t := trimWs line
  if t = outputsJson then some Request.Outputs
  else if t.take 10 = actionKey ∧ t.getLast? = some '\x7d' ∧ 10 < t.length then
    some (Request.Action ⟨(t.drop 10).dropLast⟩)
  else none

/-! ## Response serialization (`serde_json::to_vec`) -/

/-- Modelled from the spec: the JSON rendering of a string key. -/
def jsonStringLit (s : String) : List Char := '"' :: (s.toList ++ ['"'])

/-- Comma-separated concatenation of already-rendered JSON fragments. -/
def joinComma : List (List Char) → List Char
  | [] => []
  | [x] => x
  | x :: y :: rest => x ++ ',' :: joinComma (y :: rest)

/-- One `identifier: descriptor` member of the outputs object. -/
def renderEntry (p : String × Output) : List Char :=
  jsonStringLit p.1 ++ ':' :: p.2.toList

/-- Modelled from the spec: `serde_json::to_vec` applied to a `Response`
(the `niri-ipc` crate is not under `src/`): the externally tagged one-variant
union, compact (`to_vec` emits no trailing newline). -/
def serializeResponse : Response → List Char
  | Response.Outputs m =>
    '\x7b' :: (jsonStringLit "Outputs" ++ ':' :: '\x7b' ::
      (joinComma (m.map renderEntry) ++ ['\x7d', '\x7d']))

/-! ## The session handler (`handle_client`) -/

/-- The per-connection context built by `on_new_ipc_client`: the shared
snapshot source as seen at dispatch time.  (The `event_loop` handle is
represented by the list of idle callbacks a session enqueues on it.) -/
structure ClientCtx where
  ipc_outputs : OutputMap
deriving DecidableEq, Repr

/-- The session's `anyhow::Result<()>`, with the `context` message attached
on failure. -/
inductive SessionResult
  | ok
  | err (context : String)
deriving DecidableEq, Repr

/-- Everything a session does to the outside world: the payloads written to
the stream (one list entry per `write_all`), the idle callbacks enqueued on
the event loop (each will call `state.do_action` with the recorded action),
and the returned result. -/
structure HandleResult where
  written : List (List Char)
  idles : List ConfigAction
  result : SessionResult
deriving DecidableEq, Repr

/-- `handle_client`, from `src/ipc/server.rs` lines 103-136: read one line,
parse it as a JSON `Request`; a query clones the snapshot, wraps it in
`Response::Outputs`, serializes it and writes it; an action converts the
payload and enqueues one idle callback, returning without writing; a parse
failure returns the error (no write).  In the pure chunk model the read
itself cannot fail (EOF is success for `read_line`) and the in-memory sink
accepts every write. -/
def handle_client (ctx : ClientCtx) (stream : List (List Char)) : HandleResult :=
  let buf := readLine stream
  match parseRequest buf with
  | none => ⟨[], [], SessionResult.err "error parsing request"⟩
  | some Request.Outputs =>
    let ipc_outputs := ctx.ipc_outputs
    let response := Response.Outputs ipc_outputs
    let out := serializeResponse response
    ⟨[out], [], SessionResult.ok⟩
  | some (Request.Action action) =>
    let converted := configActionFrom action
    ⟨[], [converted], SessionResult.ok⟩

/-! ## Host state and the idle queue -/

/-- The host's `State`, restricted to what the server touches: the record of
`do_action` invocations. -/
structure HostState where
  doActionCalls : List ConfigAction
deriving DecidableEq, Repr

/-- `state.do_action(action)`: applies one action to the host. -/
def do_action (s : HostState) (a : ConfigAction) : HostState :=
  ⟨s.doActionCalls ++ [a]⟩

/-- Modelled from the spec: after the current I/O turn the event loop drains
its idle queue, invoking each enqueued one-shot callback exactly once, in
order; the callback inserted by `handle_client` calls `state.do_action` with
its captured action. -/
def runIdleQueue (s : HostState) (idles : List ConfigAction) : HostState :=
  idles.foldl do_action s

/-- Modelled from the spec: one scheduler turn runs the session to completion
(its writes happen during the turn) and only then drains the idle queue, so
enqueued actions are applied strictly after the turn's I/O. -/
def runTurn (ctx : ClientCtx) (stream : List (List Char)) (s : HostState) :
    HandleResult × HostState :=
  let r := handle_client ctx stream
  (r, runIdleQueue s r.idles)

/-! ## The connection acceptor (`IpcServer::start`, lines 45-56) -/

/-- The kind of an `std::io::Error`. -/
inductive IoErrorKind
  | wouldBlock
  | other (code : Nat)
deriving DecidableEq, Repr

/-- An `std::io::Error`, identified by its kind. -/
structure IoError where
  kind : IoErrorKind
deriving DecidableEq, Repr

/-- `calloop::PostAction`, the event source disposition a callback returns. -/
inductive PostAction
  | Continue
  | Reregister
  | Disable
  | Remove
deriving DecidableEq, Repr

/-- The result of the single `socket.accept()` call a callback invocation
performs: a new connection (its future byte stream) or an error. -/
inductive AcceptOutcome
  | conn (stream : List (List Char))
  | err (e : IoError)
deriving DecidableEq, Repr

/-- The acceptor callback registered by `IpcServer::start` (lines 47-55):
exactly one accept attempt per read-readiness wake-up.  `Ok` spawns one
client-session task for the stream (`on_new_ipc_client`) and keeps the
source (`PostAction::Continue`); `WouldBlock` is a no-op keeping the source;
any other error is returned from the callback.  The spawned sessions are the
second component of the `Ok` payload. -/
def acceptorCallback :
    AcceptOutcome → Except IoError (PostAction × List (List (List Char)))
  | AcceptOutcome.conn stream => Except.ok (PostAction.Continue, [stream])
  | AcceptOutcome.err e =>
    if e.kind = IoErrorKind.wouldBlock then Except.ok (PostAction.Continue, [])
    else Except.error e

/-- Modelled from the spec: after a callback invocation the event loop keeps
the source registered unless the callback asked for removal or returned an
error, in which case the source is removed and no further wake-ups (hence no
further connections) are delivered; a callback error never terminates the
host process, which continues running. -/
def sourceRegisteredAfter
    (r : Except IoError (PostAction × List (List (List Char)))) : Bool :=
  match r with
  | Except.ok (PostAction.Remove, _) => false
  | Except.ok _ => true
  | Except.error _ => false

/-! ## Socket path construction and teardown -/

/-- `PathBuf::push` of a file name onto a directory. -/
def pathJoin (dir name : String) : String := dir ++ "/" ++ name

/-- The socket file name computed by `IpcServer::start` (line 36):
`format!("niri.{wayland_socket_name}.{}.sock", process::id())`. -/
def socketName (wayland_socket_name : String) (pid : Nat) : String :=
  "niri." ++ wayland_socket_name ++ "." ++ toString pid ++ ".sock"

/-- The server handle returned by `IpcServer::start`; it owns the socket
path. -/
structure IpcServer where
  socket_path : String
deriving DecidableEq, Repr

/-- The path-construction part of `IpcServer::start` (lines 36-38, 58):
the socket directory joined with the socket file name.  `socket_dir()`
resolves the runtime directory with a temp-dir fallback (out of scope); it
enters the model as the `socket_dir` argument. -/
def startIpcServer (socket_dir wayland_socket_name : String) (pid : Nat) :
    IpcServer :=
  ⟨pathJoin socket_dir (socketName wayland_socket_name pid)⟩

/-- The filesystem, restricted to which paths exist. -/
abbrev FileSystem := List String

/-- `rustix::fs::unlink`: removes the path, failing when it does not
exist. -/
def unlink (fs : FileSystem) (p : String) : Except Unit FileSystem :=
  if p ∈ fs then Except.ok (fs.filter (fun q => q != p))
  else Except.error ()

/-- `Drop for IpcServer` (lines 62-66): `let _ = unlink(&self.socket_path)` —
the unlink result is discarded, so a failure leaves the filesystem unchanged
and the drop still completes normally (the return type carries no error). -/
def dropIpcServer (fs : FileSystem) (server : IpcServer) : FileSystem :=
  match unlink fs server.socket_path with
  | Except.ok fs2 => fs2
  | Except.error _ => fs

end NiriIpc

/-! ## Properties of line reading -/

namespace NiriIpc

theorem takeToNewline_append_of_mem (x y : List Char) (h : '\n' ∈ x) :
    takeToNewline (x ++ y) = takeToNewline x := by
  induction x with
  | nil => cases h
  | cons c rest ih =>
    by_cases hc : c = '\n'
    · simp [takeToNewline, hc]
    · have hr : '\n' ∈ rest := by
        rcases List.mem_cons.mp h with h1 | h1
        · exact absurd h1.symm hc
        · exact h1
      simp [takeToNewline, hc, ih hr]

theorem takeToNewline_append_of_not_mem (x y : List Char) (h : '\n' ∉ x) :
    takeToNewline (x ++ y) = x ++ takeToNewline y := by
  induction x with
  | nil => simp
  | cons c rest ih =>
    have hc : ¬ c = '\n' := by intro hc; exact h (by simp [hc])
    have hr : '\n' ∉ rest := by intro hr; exact h (by simp [hr])
    simp [takeToNewline, hc, ih hr]

/-- Characterization of the chunked line read: the line is everything of the
concatenated stream up to and including the first newline, or the whole
stream when no newline ever arrives before EOF. -/
theorem readLineLoop_eq (chunks : List (List Char)) :
    ∀ buf : List Char, '\n' ∉ buf →
      readLineLoop buf chunks =
        if '\n' ∈ chunks.flatten then takeToNewline (buf ++ chunks.flatten)
        else buf ++ chunks.flatten := by
  induction chunks with
  | nil => intro buf h; simp [readLineLoop]
  | cons c rest ih =>
    intro buf h
    simp only [readLineLoop, List.flatten_cons]
    by_cases hm : '\n' ∈ buf ++ c
    · have hc : '\n' ∈ c := by
        rcases List.mem_append.mp hm with h1 | h1
        · exact absurd h1 h
        · exact h1
      have hj : '\n' ∈ c ++ rest.flatten := List.mem_append.mpr (Or.inl hc)
      rw [if_pos hm, if_pos hj, ← List.append_assoc,
        takeToNewline_append_of_mem (buf ++ c) rest.flatten hm]
    · have hc : '\n' ∉ c := fun hcc => hm (List.mem_append.mpr (Or.inr hcc))
      rw [if_neg hm, ih (buf ++ c) hm]
      by_cases hj : '\n' ∈ rest.flatten
      · have hj2 : '\n' ∈ c ++ rest.flatten := List.mem_append.mpr (Or.inr hj)
        rw [if_pos hj, if_pos hj2, List.append_assoc]
      · have hj2 : '\n' ∉ c ++ rest.flatten := by
          intro hx
          rcases List.mem_append.mp hx with h1 | h1
          · exact hc h1
          · exact hj h1
        rw [if_neg hj, if_neg hj2, List.append_assoc]

theorem readLine_eq (chunks : List (List Char)) :
    readLine chunks =
      if '\n' ∈ chunks.flatten then takeToNewline chunks.flatten
      else chunks.flatten := by
  have := readLineLoop_eq chunks [] (by simp)
  simpa [readLine] using this

theorem readLine_single (l : List Char) :
    readLine [l] = if '\n' ∈ l then takeToNewline l else l := by
  have := readLine_eq [l]
  simpa using this

theorem takeToNewline_idem (l : List Char) :
    takeToNewline (takeToNewline l) = takeToNewline l := by
  induction l with
  | nil => rfl
  | cons c rest ih =>
    by_cases hc : c = '\n'
    · simp [takeToNewline, hc]
    · simp [takeToNewline, hc, ih]

/-- Chunk boundaries are invisible to the line reader. -/
theorem readLine_flatten (chunks : List (List Char)) :
    readLine chunks = readLine [chunks.flatten] := by
  rw [readLine_eq, readLine_single]

/-- Re-reading the line the reader produced yields it unchanged: everything
after the first newline is never consumed. -/
theorem readLine_idem (chunks : List (List Char)) :
    readLine [readLine chunks] = readLine chunks := by
  rw [readLine_single]
  by_cases h : '\n' ∈ readLine chunks
  · rw [if_pos h]
    rw [readLine_eq] at h ⊢
    by_cases hj : '\n' ∈ chunks.flatten
    · rw [if_pos hj] at h ⊢
      exact takeToNewline_idem _
    · rw [if_neg hj] at h ⊢
      exact absurd h hj
  · rw [if_neg h]

/-- A serialized response ends in the closing brace of the outer object; in
particular it carries no trailing newline. -/
theorem serializeResponse_getLast (r : Response) :
    (serializeResponse r).getLast? = some '\x7d' := by
  cases r with
  | Outputs m =>
    have hsplit : serializeResponse (Response.Outputs m) =
        ('\x7b' :: (jsonStringLit "Outputs" ++ ':' :: '\x7b' ::
          joinComma (m.map renderEntry))) ++ ['\x7d', '\x7d'] := by
      simp [serializeResponse]
    rw [hsplit, List.getLast?_append_of_ne_nil _ (by simp)]
    rfl

end NiriIpc

namespace NiriIpc

/-- Claim C1: for every well-formed query request (`Request::Outputs`),
`handle_client` writes to the stream exactly the JSON serialization of
`Response::Outputs` applied to the snapshot mapping as passed at dispatch
(one write, no other bytes), enqueues nothing, returns `Ok(())`, and the
payload carries no trailing newline. -/
theorem handle_client_query_exact (ctx : ClientCtx) (stream : List (List Char))
    (h : parseRequest (readLine stream) = some Request.Outputs) :
    handle_client ctx stream =
      ⟨[serializeResponse (Response.Outputs ctx.ipc_outputs)], [],
        SessionResult.ok⟩ ∧
    (serializeResponse (Response.Outputs ctx.ipc_outputs)).getLast? ≠
      some '\n' := by
  refine ⟨by simp [handle_client, h], ?_⟩
  rw [serializeResponse_getLast]
  simp

theorem handle_client_query_exact_witness :
    handle_client ⟨[("eDP-1", "d1")]⟩ [outputsJson ++ ['\n']] =
      ⟨[serializeResponse (Response.Outputs [("eDP-1", "d1")])], [],
        SessionResult.ok⟩ ∧
    (serializeResponse (Response.Outputs [("eDP-1", "d1")])).getLast? ≠
      some '\n' :=
  handle_client_query_exact ⟨[("eDP-1", "d1")]⟩ [outputsJson ++ ['\n']]
    (by decide)

/-- Claim C2: for every well-formed action request, `handle_client` writes
zero response bytes, returns `Ok(())`, and enqueues exactly one idle
callback carrying the converted action; draining the idle queue after the
session's scheduler turn invokes `do_action` exactly once with that
action. -/
theorem handle_client_action_fire_and_forget (ctx : ClientCtx)
    (stream : List (List Char)) (a : IpcAction)
    (h : parseRequest (readLine stream) = some (Request.Action a)) :
    handle_client ctx stream =
      ⟨[], [configActionFrom a], SessionResult.ok⟩ ∧
    ∀ s : HostState, (runTurn ctx stream s).2 =
      ⟨s.doActionCalls ++ [configActionFrom a]⟩ := by
  have hc : handle_client ctx stream =
      ⟨[], [configActionFrom a], SessionResult.ok⟩ := by
    simp [handle_client, h]
  exact ⟨hc, fun s => by simp [runTurn, hc, runIdleQueue, do_action]⟩

theorem handle_client_action_fire_and_forget_witness :
    handle_client ⟨[]⟩ [actionKey ++ ['"', 'X', '"', '\x7d', '\n']] =
      ⟨[], [configActionFrom ⟨['"', 'X', '"']⟩], SessionResult.ok⟩ ∧
    (runTurn ⟨[]⟩ [actionKey ++ ['"', 'X', '"', '\x7d', '\n']] ⟨[]⟩).2 =
      ⟨[configActionFrom ⟨['"', 'X', '"']⟩]⟩ :=
  ⟨(handle_client_action_fire_and_forget ⟨[]⟩
      [actionKey ++ ['"', 'X', '"', '\x7d', '\n']] ⟨['"', 'X', '"']⟩
      (by decide)).1,
   (handle_client_action_fire_and_forget ⟨[]⟩
      [actionKey ++ ['"', 'X', '"', '\x7d', '\n']] ⟨['"', 'X', '"']⟩
      (by decide)).2 ⟨[]⟩⟩

/-- Claim C3: for every input line that does not parse as a `Request`,
`handle_client` returns the parse error (aborting the session) with zero
response bytes written and nothing enqueued; no structured error reply is
sent. -/
theorem handle_client_parse_failure_silent (ctx : ClientCtx)
    (stream : List (List Char))
    (h : parseRequest (readLine stream) = none) :
    handle_client ctx stream =
      ⟨[], [], SessionResult.err "error parsing request"⟩ := by
  simp [handle_client, h]

theorem handle_client_parse_failure_silent_witness :
    handle_client ⟨[("eDP-1", "d1")]⟩ [['x', '\n']] =
      ⟨[], [], SessionResult.err "error parsing request"⟩ :=
  handle_client_parse_failure_silent ⟨[("eDP-1", "d1")]⟩ [['x', '\n']]
    (by decide)

end NiriIpc

namespace NiriIpc

/-- Claim C4, counterexample: it is not true that every connection whose
stream ends before any newline aborts without writing.  The stream that
delivers the complete query `"Outputs"` and then closes is served with a
response (`read_line` treats EOF as success and returns the buffered
bytes). -/
theorem eof_always_aborts_refuted :
    ¬ (∀ (ctx : ClientCtx) (stream : List (List Char)),
        (∀ chunk ∈ stream, '\n' ∉ chunk) →
        (handle_client ctx stream).written = [] ∧
        (handle_client ctx stream).result ≠ SessionResult.ok) := by
  intro hall
  exact absurd (hall ⟨[]⟩ [outputsJson] (by decide)) (by decide)

/-- Claim C4, amended: for a connection whose stream ends before any newline,
`read_line` returns the buffered bytes at EOF; the session aborts without
writing exactly when those bytes do not parse as a `Request`, and is served
normally when they parse as the query. -/
theorem eof_without_newline (ctx : ClientCtx) (stream : List (List Char))
    (hnl : ∀ chunk ∈ stream, '\n' ∉ chunk) :
    (parseRequest stream.flatten = none →
      handle_client ctx stream =
        ⟨[], [], SessionResult.err "error parsing request"⟩) ∧
    (parseRequest stream.flatten = some Request.Outputs →
      (handle_client ctx stream).written =
        [serializeResponse (Response.Outputs ctx.ipc_outputs)]) := by
  have hline : readLine stream = stream.flatten := by
    rw [readLine_eq, if_neg]
    intro hmem
    rcases List.mem_flatten.mp hmem with ⟨c, hc, hcc⟩
    exact hnl c hc hcc
  constructor
  · intro hp; simp [handle_client, hline, hp]
  · intro hp; simp [handle_client, hline, hp]

theorem eof_without_newline_witness :
    handle_client ⟨[]⟩ [['x']] =
      ⟨[], [], SessionResult.err "error parsing request"⟩ :=
  (eof_without_newline ⟨[]⟩ [['x']] (by decide)).1 (by decide)

/-- Claim C5: the acceptor callback performs exactly one accept attempt per
wake-up (it consumes a single accept outcome): success spawns exactly one
session and keeps the source registered (`PostAction::Continue`);
`WouldBlock` spawns nothing and keeps the source; any other error is
returned from the callback, after which the event loop deregisters the
source (no further connections) while the host keeps running. -/
theorem acceptor_one_accept_policy :
    (∀ stream, acceptorCallback (AcceptOutcome.conn stream) =
        Except.ok (PostAction.Continue, [stream]) ∧
      sourceRegisteredAfter (acceptorCallback (AcceptOutcome.conn stream)) =
        true) ∧
    (∀ e : IoError, e.kind = IoErrorKind.wouldBlock →
      acceptorCallback (AcceptOutcome.err e) =
        Except.ok (PostAction.Continue, []) ∧
      sourceRegisteredAfter (acceptorCallback (AcceptOutcome.err e)) =
        true) ∧
    (∀ e : IoError, e.kind ≠ IoErrorKind.wouldBlock →
      acceptorCallback (AcceptOutcome.err e) = Except.error e ∧
      sourceRegisteredAfter (acceptorCallback (AcceptOutcome.err e)) =
        false) := by
  refine ⟨fun s => ⟨rfl, rfl⟩, fun e he => ?_, fun e he => ?_⟩
  · simp [acceptorCallback, he, sourceRegisteredAfter]
  · simp [acceptorCallback, he, sourceRegisteredAfter]

theorem acceptor_one_accept_policy_witness :
    (acceptorCallback (AcceptOutcome.conn [['x']]) =
        Except.ok (PostAction.Continue, [[['x']]]) ∧
      sourceRegisteredAfter (acceptorCallback (AcceptOutcome.conn [['x']])) =
        true) ∧
    (acceptorCallback (AcceptOutcome.err ⟨IoErrorKind.wouldBlock⟩) =
        Except.ok (PostAction.Continue, []) ∧
      sourceRegisteredAfter
        (acceptorCallback (AcceptOutcome.err ⟨IoErrorKind.wouldBlock⟩)) =
        true) ∧
    (acceptorCallback (AcceptOutcome.err ⟨IoErrorKind.other 13⟩) =
        Except.error ⟨IoErrorKind.other 13⟩ ∧
      sourceRegisteredAfter
        (acceptorCallback (AcceptOutcome.err ⟨IoErrorKind.other 13⟩)) =
        false) :=
  ⟨acceptor_one_accept_policy.1 [['x']],
   acceptor_one_accept_policy.2.1 ⟨IoErrorKind.wouldBlock⟩ rfl,
   acceptor_one_accept_policy.2.2 ⟨IoErrorKind.other 13⟩ (by decide)⟩

/-- Claim C6: `start` produces the socket path `socket_dir()` joined with
the file name `"niri." ++ wayland_socket_name ++ "." ++ pid ++ ".sock"`;
for session identifier "wayland-1" and process id 4242 the file name is
exactly "niri.wayland-1.4242.sock". -/
theorem socket_path_format :
    (∀ (socket_dir wayland_socket_name : String) (pid : Nat),
      (startIpcServer socket_dir wayland_socket_name pid).socket_path =
        pathJoin socket_dir
          ("niri." ++ wayland_socket_name ++ "." ++ toString pid ++
            ".sock")) ∧
    socketName "wayland-1" 4242 = "niri.wayland-1.4242.sock" :=
  ⟨fun _ _ _ => rfl, by decide⟩

/-- Claim C7: the line reader reassembles a request line delivered across
any number of partial chunks into the same line (hence the same parsed
request and the same session behaviour) as the whole stream delivered at
once. -/
theorem session_chunking_invariant (ctx : ClientCtx)
    (stream : List (List Char)) :
    readLine stream = readLine [stream.flatten] ∧
    handle_client ctx stream = handle_client ctx [stream.flatten] := by
  refine ⟨readLine_flatten stream, ?_⟩
  simp only [handle_client, ← readLine_flatten]

/-- Claim C8: dropping the server unlinks the socket path — afterwards the
path is absent from the filesystem — and an unlink failure is swallowed:
the drop still completes, leaving the filesystem unchanged, and reports no
error (its result type carries none). -/
theorem drop_unlinks_socket (fs : FileSystem) (server : IpcServer) :
    server.socket_path ∉ dropIpcServer fs server ∧
    (unlink fs server.socket_path = Except.error () →
      dropIpcServer fs server = fs) := by
  constructor
  · by_cases h : server.socket_path ∈ fs
    · simp [dropIpcServer, unlink, h, List.mem_filter]
    · simp [dropIpcServer, unlink, h]
  · intro he
    simp [dropIpcServer, he]

theorem drop_unlinks_socket_witness :
    "/run/user/1000/niri.wayland-1.4242.sock" ∉
      dropIpcServer ["/run/user/1000/other.sock"]
        ⟨"/run/user/1000/niri.wayland-1.4242.sock"⟩ ∧
    dropIpcServer ["/run/user/1000/other.sock"]
        ⟨"/run/user/1000/niri.wayland-1.4242.sock"⟩ =
      ["/run/user/1000/other.sock"] :=
  ⟨(drop_unlinks_socket ["/run/user/1000/other.sock"]
      ⟨"/run/user/1000/niri.wayland-1.4242.sock"⟩).1,
   (drop_unlinks_socket ["/run/user/1000/other.sock"]
      ⟨"/run/user/1000/niri.wayland-1.4242.sock"⟩).2 rfl⟩

/-- Claim C9: every session performs at most one write on every execution
path, and its whole behaviour depends only on the single line it reads:
bytes after the first newline are never handled. -/
theorem session_single_exchange (ctx : ClientCtx)
    (stream : List (List Char)) :
    (handle_client ctx stream).written.length ≤ 1 ∧
    handle_client ctx stream = handle_client ctx [readLine stream] := by
  constructor
  · rcases hp : parseRequest (readLine stream) with _ | r
    · simp [handle_client, hp]
    · cases r <;> simp [handle_client, hp]
  · simp only [handle_client, readLine_idem]

/-- Claim C10: a connection that delivers a complete valid JSON query with
no terminating newline and then closes is still served: `read_line`
returns the buffered bytes at EOF, the request parses, and the query
receives a normal response. -/
theorem eof_valid_json_served :
    (∀ chunk ∈ [['"', 'O', 'u', 't'], ['p', 'u', 't', 's', '"']],
      '\n' ∉ chunk) ∧
    handle_client ⟨[("eDP-1", "d1")]⟩
        [['"', 'O', 'u', 't'], ['p', 'u', 't', 's', '"']] =
      ⟨[serializeResponse (Response.Outputs [("eDP-1", "d1")])], [],
        SessionResult.ok⟩ := by
  exact ⟨by decide, by decide⟩

end NiriIpc
